import Mathlib

set_option maxHeartbeats 1000000

/-!
Verification development for the `testing-paxos` model-checking harness.

The definitions below are a shallow embedding of the Go sources:
the single-decree Paxos replica (`Message`, `Paxos`, `Paxos.Propose`,
`Paxos.Next`), the canonical user step function `paxosRunner` from the
test file, the exhaustive test-case generator (`productIterator`), the
`TestCase` binary codec, and the CRC-checked replay record format.

Modelling conventions:
* Go `int` is modelled as `Int` (no operation in scope approaches the
  64-bit boundary), `[]byte` values as `Option (List Nat)` where `none`
  is the nil slice, and `map[int]struct{}` sets as duplicate-free lists
  whose length is the cardinality.
* A Go `panic` is modelled as the `.error` branch of `Except String`
  (for `Paxos.Next`) or a dedicated outcome constructor.
* The replica delivers no message to itself, so the nil-map panic that
  Go would raise on `updatePromise` before any `Propose` is unreachable
  in harness executions and is not modelled.
-/

/-- Go `type Value []byte`; `none` models the nil slice, which is
distinguished from the empty slice `some []`. -/
abbrev Value := Option (List Nat)

/-- Go `MessageType` constants (`MessageEmpty` through `MessageAccepted`). -/
inductive MessageType where
  | empty
  | prepare
  | promise
  | accept
  | accepted
deriving DecidableEq, Repr

/-- Go `Message` struct.  `Val` is the `Value` field (renamed to avoid
clashing with the `Value` type), `Typ` is the `Type` field. -/
structure Message where
  From : Int
  To : Int
  Typ : MessageType
  Ballot : Int
  Val : Value := none
  VotedBallot : Int := 0
deriving DecidableEq, Repr

/-- Insert into a duplicate-free list, modelling `m[id] = struct{}{}` on a
Go `map[int]struct{}`; list length models `len(m)`. -/
def insertSet (x : Int) (s : List Int) : List Int :=
  if x ∈ s then s else s ++ [x]

/-- Go `Paxos` struct (the `R1Majority`/`R2Majority` variant cited by the
claims). -/
structure Paxos where
  ID : Int
  Nodes : List Int
  R1Majority : Int
  R2Majority : Int
  ballot : Int := 0
  promises : List Int := []
  promiseValue : Value := none
  promiseBallot : Int := 0
  accepts : List Int := []
  votedValue : Value := none
  votedBallot : Int := 0
  value : Value := none
  LearnedValue : Value := none
  Messages : List Message := []
deriving DecidableEq, Repr

/-- Go `(p *Paxos).updatePromise(id, votedValue, votedBallot)`. -/
def Paxos.updatePromise (p : Paxos) (id : Int) (votedValue : Value)
    (votedBallot : Int) : Paxos :=
  let p := { p with promises := insertSet id p.promises }
  if votedBallot > p.promiseBallot then
    { p with promiseBallot := votedBallot, promiseValue := votedValue }
  else p

/-- Go `(p *Paxos).Propose(value)`: Phase 1A.  Increments the ballot,
broadcasts `Prepare` to every other node, resets the per-round promise
and accept tracking, and records the self-promise. -/
def Paxos.Propose (p : Paxos) (v : Value) : Paxos :=
  let b := p.ballot + 1
  let outbox := (p.Nodes.filter (fun id => id ≠ p.ID)).map fun id =>
    { From := p.ID, To := id, Typ := .prepare, Ballot := b : Message }
  let p := { p with value := v, ballot := b, Messages := p.Messages ++ outbox,
                    promises := [], promiseBallot := 0, promiseValue := none }
  let p := p.updatePromise p.ID p.votedValue p.votedBallot
  { p with accepts := [] }

/-- Go `(p *Paxos).Next(m)`: deliver one message.  The `.error` branch
models the Go `panic` on an id mismatch; note that the stale-ballot drop
is checked first, exactly as in the source. -/
def Paxos.Next (p : Paxos) (m : Message) : Except String Paxos :=
  if m.Ballot < p.ballot then .ok p
  else if m.To ≠ p.ID then .error "id mismatch"
  else
    match m.Typ with
    | .prepare =>
        if m.Ballot > p.ballot then
          .ok { p with ballot := m.Ballot,
                       Messages := p.Messages ++
                         [{ From := p.ID, To := m.From, Typ := .promise,
                            Ballot := m.Ballot, Val := p.votedValue,
                            VotedBallot := p.votedBallot }] }
        else .ok p
    | .promise =>
        if m.Ballot = p.ballot then
          let p := p.updatePromise m.From m.Val m.VotedBallot
          if (p.promises.length : Int) = p.R1Majority then
            let pv := if p.promiseValue = none then p.value else p.promiseValue
            let outbox := (p.Nodes.filter (fun id => id ≠ p.ID)).map fun id =>
              { From := p.ID, To := id, Typ := .accept, Ballot := p.ballot,
                Val := pv : Message }
            .ok { p with promiseValue := pv, Messages := p.Messages ++ outbox,
                         votedValue := pv, votedBallot := p.ballot,
                         accepts := insertSet p.ID p.accepts }
          else .ok p
        else .ok p
    | .accept =>
        if m.Ballot ≥ p.ballot then
          .ok { p with ballot := m.Ballot, votedValue := m.Val,
                       votedBallot := m.Ballot,
                       Messages := p.Messages ++
                         [{ From := p.ID, To := m.From, Typ := .accepted,
                            Ballot := m.Ballot }] }
        else .ok p
    | .accepted =>
        if m.Ballot = p.ballot then
          let p := { p with accepts := insertSet m.From p.accepts }
          if (p.accepts.length : Int) = p.R2Majority then
            .ok { p with LearnedValue := p.votedValue }
          else .ok p
        else .ok p
    | .empty => .ok p

/-- Go `Partition`: a set of ordered reachability pairs
(`map[int]map[int]struct{}` modelled by membership in a pair list). -/
abbrev PartitionT := List (Int × Int)

/-- Go `Partition.Reachable(from, to)`. -/
def Reachable (p : PartitionT) (a b : Int) : Bool :=
  decide ((a, b) ∈ p)

/-- All ordered pairs `(nodes[i], to)` with `to` after `nodes[i]`, as built
by the nested loops of `WithExplicitPartitions`. -/
def groupPairs : List Int → List (Int × Int)
  | [] => []
  | a :: rest => (rest.map fun b => (a, b)) ++ groupPairs rest

/-- Go `Partition.Add(from, to)` adds both orientations; a network (list
of mutually-connected groups) therefore yields this pair list. -/
def partitionOfNetwork (network : List (List Int)) : PartitionT :=
  network.flatMap fun nodes =>
    (groupPairs nodes).flatMap fun ab => [(ab.1, ab.2), (ab.2, ab.1)]

/-- Go `Actions`: a `map[int]bool` modelled as an association list. -/
abbrev ActionsT := List (Int × Bool)

/-- Go `Actions.IsLeader(replica)`: lookup defaulting to `false`. -/
def IsLeader (a : ActionsT) (replica : Int) : Bool :=
  (a.lookup replica).getD false

/-- `byte(node.ID)` in `paxosRunner`. -/
def byteOf (i : Int) : Nat := (i % 256).toNat

/-- The cluster built at the top of `paxosRunner`, with the quorum sizes
left as parameters (the committed test hardcodes `R1Majority: 4,
R2Majority: 2`; the spec's design rationale has tests perturb them). -/
def initCluster (nodes : List Int) (r1 r2 : Int) : List Paxos :=
  nodes.map fun id =>
    { ID := id, Nodes := nodes, R1Majority := r1, R2Majority := r2 }

/-- State threaded through the `paxosRunner` loop: the replicas (in the
fixed id order the Lean model uses for Go's map iteration) and the
pending message list carried between steps. -/
structure RState where
  cluster : List Paxos
  messages : List Message
deriving DecidableEq, Repr

/-- First phase of a `paxosRunner` step: every leader proposes
`[]byte{byte(node.ID)}`, then each replica's outbox is drained into the
shared message list (in cluster order, as one loop in the source). -/
def proposeCollect (acts : ActionsT) : List Paxos → List Message → List Paxos × List Message
  | [], msgs => ([], msgs)
  | p :: rest, msgs =>
    let p := if IsLeader acts p.ID then p.Propose (some [byteOf p.ID]) else p
    let msgs := msgs ++ p.Messages
    let p := { p with Messages := [] }
    let (cl, out) := proposeCollect acts rest msgs
    (p :: cl, out)

/-- `cluster[msg.To].Next(msg)`: deliver one message to its destination
replica, propagating the id-mismatch panic. -/
def deliverTo : List Paxos → Message → Except String (List Paxos)
  | [], _ => .ok []
  | p :: rest, m =>
    if p.ID = m.To then
      match p.Next m with
      | .error e => .error e
      | .ok p => .ok (p :: rest)
    else
      match deliverTo rest m with
      | .error e => .error e
      | .ok rest => .ok (p :: rest)

/-- Second phase of a `paxosRunner` step: deliver each pending message if
its route is reachable, otherwise carry it over as delayed. -/
def deliverAll (net : PartitionT) : List Paxos → List Message → List Message →
    Except String (List Paxos × List Message)
  | cl, [], delayed => .ok (cl, delayed)
  | cl, m :: rest, delayed =>
    if Reachable net m.From m.To then
      match deliverTo cl m with
      | .error e => .error e
      | .ok cl => deliverAll net cl rest delayed
    else deliverAll net cl rest (delayed ++ [m])

/-- Third phase of a `paxosRunner` step: the agreement check.  `acc` is
the `learned` accumulator; a second distinct non-nil learned value is
the failure the harness reports. -/
def checkLearned : List Paxos → Value → Except String Unit
  | [], _ => .ok ()
  | p :: rest, acc =>
    match p.LearnedValue, acc with
    | some v, none => checkLearned rest (some v)
    | some v, some w =>
        if v ≠ w then .error "learned values differ"
        else checkLearned rest (some w)
    | none, a => checkLearned rest a

/-- One full iteration of the `paxosRunner` loop for a given
`(partition, actions)` pair. -/
def paxosStep (net : PartitionT) (acts : ActionsT) (s : RState) :
    Except String RState :=
  let (cl, msgs) := proposeCollect acts s.cluster s.messages
  match deliverAll net cl msgs [] with
  | .error e => .error e
  | .ok (cl, delayed) =>
      match checkLearned cl none with
      | .error e => .error e
      | .ok _ => .ok ⟨cl, delayed⟩

/-- `paxosRunner` driven by an explicit schedule (the successive
`(Partition, Actions)` pairs a TestCase yields). -/
def runSteps : List (PartitionT × ActionsT) → RState → Except String RState
  | [], s => .ok s
  | (net, acts) :: rest, s =>
    match paxosStep net acts s with
    | .error e => .error e
    | .ok s => runSteps rest s

/-- Learned value of the replica with the given id in a cluster list. -/
def learnedOf (cl : List Paxos) (id : Int) : Value :=
  match cl.find? (fun p => p.ID = id) with
  | some p => p.LearnedValue
  | none => none

/-! ### Generator: exhaustive product iterator (`generator.go`) -/

/-- Go `stepState`: a pair of indices into the actions and partitions
tables. -/
structure stepState where
  actions : Nat
  partition : Nat
deriving DecidableEq, Repr

/-- The `gen.states` table built by `NewGen`: the nested loops
`for i := range actions { for j := range partitions { ... } }`. -/
def stepStatesTable (A P : Nat) : List stepState :=
  (List.range A).flatMap fun i => (List.range P).map fun j => ⟨i, j⟩

/-- Go `productIterator` permutation state.  `cnts` is kept
least-significant digit first; Go keeps the same digits in an `[]int16`
slice with the least-significant digit at the *last* index (its
increment loop walks from the end), and every digit stays below
`len(states) ≤ 32767`, so `Nat` digits are exact. -/
structure productIterator where
  ended : Bool
  cnts : List Nat
deriving DecidableEq, Repr

/-- The increment loop inside `productIterator.Next`: bump the
least-significant digit, carrying while a digit reaches `N`; the carry
out of the most significant digit sets `ended`. -/
def incLE (N : Nat) : List Nat → List Nat × Bool
  | [] => ([], true)
  | d :: ds =>
    if d + 1 < N then ((d + 1) :: ds, false)
    else
      let (ds, e) := incLE N ds
      (0 :: ds, e)

/-- Go `productIterator.Next`: emit a copy of the current counter
vector, then increment it.  Returns `none` once exhausted. -/
def piNext (N : Nat) (pi : productIterator) : Option (List Nat) × productIterator :=
  if pi.ended then (none, pi)
  else
    let out := pi.cnts
    let (c, e) := incLE N pi.cnts
    (some out, ⟨e, c⟩)

/-- Iterator state created by `NewGen`: `make([]int16, stepLimit)`. -/
def piInit (S : Nat) : productIterator := ⟨false, List.replicate S 0⟩

/-- Iterator state after `k` calls to `Next`. -/
def piState (N S : Nat) : Nat → productIterator
  | 0 => piInit S
  | k + 1 => (piNext N (piState N S k)).2

/-- The state-index vector produced by call number `k` (0-based), or
`none` if the generator was already exhausted. -/
def piOut (N S k : Nat) : Option (List Nat) := (piNext N (piState N S k)).1

/-- Little-endian base-`N` digits of `k`, padded to `S` digits. -/
def toLE (N : Nat) : Nat → Nat → List Nat
  | 0, _ => []
  | S + 1, k => k % N :: toLE N S (k / N)

/-- Value of a little-endian base-`N` digit list. -/
def fromLE (N : Nat) : List Nat → Nat
  | [] => 0
  | d :: ds => d + N * fromLE N ds

/-! ### TestCase codec (`TestCase.Marshal` / `TestCase.Unmarshal`) -/

/-- `w` little-endian bytes of `n` (the `encoding/binary` layout). -/
def toLEBytes (w n : Nat) : List Nat := toLE 256 w n

/-- Value of a little-endian byte list. -/
def fromLEBytes (bs : List Nat) : Nat := fromLE 256 bs

/-- Two little-endian bytes of an `int16` (two's complement). -/
def enc16 (v : Int) : List Nat := toLEBytes 2 (v.emod 65536).toNat

/-- Decode an `int16` from two little-endian bytes. -/
def dec16 (b0 b1 : Nat) : Int :=
  let u := b0 + 256 * b1
  if u < 32768 then (u : Int) else (u : Int) - 65536

/-- Go `TestCase.Marshal`: an `int64` state count followed by the states
as `int16` values, all little-endian. -/
def Marshal (states : List Int) : List Nat :=
  toLEBytes 8 states.length ++ states.flatMap enc16

/-- Decode consecutive `int16` values. -/
def decStates : List Nat → List Int
  | b0 :: b1 :: rest => dec16 b0 b1 :: decStates rest
  | _ => []

/-- Go `TestCase.Unmarshal`.  `none` models both `binary.Read` errors on
a short buffer and the `make` panic a negative decoded count would
raise; trailing bytes beyond the encoded states are ignored, as
`bytes.Buffer` reads are. -/
def Unmarshal (b : List Nat) : Option (List Int) :=
  if 8 ≤ b.length then
    let u := fromLEBytes (b.take 8)
    if u < 2 ^ 63 then
      let body := (b.drop 8).take (2 * u)
      if body.length = 2 * u then some (decStates body) else none
    else none
  else none

/-! ### Replay log records (`replay.go`)

`hash/crc32` with the Castagnoli table is standard-library code outside
this repository; it is embedded by the standard bit-level definition of
CRC-32C that the table implements (`crc32.Update(0, tab, p)` equals the
bitwise reflected algorithm with pre- and post-complement). -/

/-- Reflected CRC-32C (Castagnoli) polynomial. -/
def CASTAGNOLI : Nat := 0x82F63B78

/-- One shift round of the reflected CRC algorithm:
`crc = (crc >> 1) ^ (crc & 1 == 1 ? poly : 0)`. -/
def crcT (x : Nat) : Nat := x / 2 ^^^ (if x % 2 = 1 then CASTAGNOLI else 0)

/-- `k` shift rounds. -/
def crcShift : Nat → Nat → Nat
  | 0, c => c
  | k + 1, c => crcShift k (crcT c)

/-- Process one payload byte: fold it into the state, then eight shift
rounds. -/
def processByte (c b : Nat) : Nat := crcShift 8 (c ^^^ b)

/-- The 32-bit all-ones mask used for the pre/post complement. -/
def MASK32 : Nat := 0xFFFFFFFF

/-- `crc32.Update(0, crcTable, p)` for the Castagnoli table. -/
def crc32c (p : List Nat) : Nat := (p.foldl processByte MASK32) ^^^ MASK32

/-- Go `Replay.Write` record bytes for a TestCase with the given states:
4-byte little-endian payload length, 4-byte little-endian CRC-32C of the
payload, then the payload (`TestCase.Marshal`). -/
def writeRecord (states : List Int) : List Nat :=
  let buf := Marshal states
  toLEBytes 4 buf.length ++ toLEBytes 4 (crc32c buf) ++ buf

/-- Go `Replay.Read`: read the 8-byte meta, the length-prefixed payload,
verify the CRC and decode. -/
def readRecord (b : List Nat) : Except String (List Int) :=
  if 8 ≤ b.length then
    let lth := fromLEBytes (b.take 4)
    let code := fromLEBytes ((b.drop 4).take 4)
    let buf := (b.drop 8).take lth
    if buf.length = lth then
      if crc32c buf ≠ code then .error "replay file is corrupted"
      else
        match Unmarshal buf with
        | some states => .ok states
        | none => .error "unmarshal failed"
    else .error "unexpected EOF"
  else .error "unexpected EOF"

/-- Flip bit `i` (little-endian within each byte) of a byte list: XOR
byte `i / 8` with `2 ^ (i % 8)`. -/
def flipBit (p : List Nat) (i : Nat) : List Nat :=
  p.set (i / 8) (p.getD (i / 8) 0 ^^^ 2 ^ (i % 8))

/-! ### Generator construction (`NewGen` and its options) -/

/-- The generator options exercised by `NewGen` in `generator.go`
(`WithReplay` only swaps the iterator and is modelled separately). -/
inductive GenOption where
  | withExplicitPartitions (networks : List (List (List Int)))
  | withReplicas (replicas : List Int)
  | withLeaders (leaders : List Int)
  | withSteps (stepLimit : Int)
deriving DecidableEq, Repr

/-- The mutable `Generator` fields the options touch; `none` models a
nil Go slice. -/
structure GenConfig where
  stepLimit : Int := 0
  nodes : Option (List Int) := none
  partitions : Option (List PartitionT) := none
  actions : Option (List ActionsT) := none
deriving DecidableEq, Repr

/-- `WithExplicitPartitions` appends one Partition per network; with an
empty argument list a nil `partitions` slice stays nil. -/
def appendPartitions (cur : Option (List PartitionT))
    (networks : List (List (List Int))) : Option (List PartitionT) :=
  match networks with
  | [] => cur
  | _ => some (cur.getD [] ++ networks.map partitionOfNetwork)

/-- `WithLeaders` always appends the empty Actions plus one singleton
Actions per leader. -/
def leaderActions (leaders : List Int) : List ActionsT :=
  [] :: leaders.map fun l => [(l, true)]

/-- Apply one option to the generator under construction, as the
`GenOption` closures in `generator.go` do. -/
def applyOpt (g : GenConfig) : GenOption → Except String GenConfig
  | .withExplicitPartitions networks =>
      .ok { g with partitions := appendPartitions g.partitions networks }
  | .withReplicas replicas => .ok { g with nodes := some replicas }
  | .withLeaders leaders =>
      if g.nodes = none then .error "replicas must be configured earlier than leaders"
      else .ok { g with actions := some (g.actions.getD [] ++ leaderActions leaders) }
  | .withSteps stepLimit => .ok { g with stepLimit := stepLimit }

/-- The option loop at the top of `NewGen`. -/
def applyAll : GenConfig → List GenOption → Except String GenConfig
  | g, [] => .ok g
  | g, o :: rest =>
    match applyOpt g o with
    | .error e => .error e
    | .ok g => applyAll g rest

/-- The constructed generator (the fields `TestCase.Next` consumes). -/
structure GenTables where
  stepLimit : Int
  nodes : List Int
  partitions : List PartitionT
  actions : List ActionsT
  states : List stepState
deriving DecidableEq, Repr

/-- Outcome of `NewGen`: success, a returned error, or a runtime fault
(`make([]int16, stepLimit)` panics on a negative step limit). -/
inductive GenOutcome where
  | ok (g : GenTables)
  | err (msg : String)
  | fault
deriving DecidableEq, Repr

/-- The step limit after `NewGen` applies the default of 10. -/
def effStepLimit (g : GenConfig) : Int := if g.stepLimit = 0 then 10 else g.stepLimit

/-- Go `NewGen`: apply the options, default the step limit, reject unset
actions or partitions, build the stepState table, enforce the `int16`
bound, then build the product iterator. -/
def NewGen (opts : List GenOption) : GenOutcome :=
  match applyAll {} opts with
  | .error e => .err e
  | .ok g =>
    let g := { g with stepLimit := effStepLimit g }
    match g.actions with
    | none => .err "provide an option to configure actions"
    | some actions =>
      match g.partitions with
      | none => .err "provide an option to configure partitions"
      | some partitions =>
        let states := stepStatesTable actions.length partitions.length
        if (states.length : Int) > 32767 then
          .err "max number of possible states"
        else if g.stepLimit < 0 then .fault
        else .ok ⟨g.stepLimit, g.nodes.getD [], partitions, actions, states⟩

/-- A leaders option appears before any replicas option (the condition
under which the option loop itself fails). -/
def leadersBeforeReplicas : Bool → List GenOption → Bool
  | _, [] => false
  | seen, .withLeaders _ :: rest =>
      if seen then leadersBeforeReplicas seen rest else true
  | _, .withReplicas _ :: rest => leadersBeforeReplicas true rest
  | seen, _ :: rest => leadersBeforeReplicas seen rest

/-! ### `TestCase.Next` against a generator's tables -/

/-- Go `TestCase`: decoded `int16` state indices plus the step cursor. -/
structure TestCase where
  states : List Int
  step : Nat := 0
deriving DecidableEq, Repr

/-- Outcome of `TestCase.Next`: end of sequence (`nil, nil`), an
index-out-of-range runtime fault, or the selected pair plus the advanced
TestCase. -/
inductive TCNext where
  | done
  | fault
  | ok (p : PartitionT) (a : ActionsT) (tc : TestCase)
deriving DecidableEq, Repr

/-- Go `TestCase.Next`: index `gen.states` with the raw decoded value;
an index outside `[0, len(gen.states))` faults — nothing validates it. -/
def TestCase.Next (g : GenTables) (t : TestCase) : TCNext :=
  if t.step = t.states.length then .done
  else
    let idx := t.states.getD t.step 0
    if idx < 0 ∨ (g.states.length : Int) ≤ idx then .fault
    else
      let st := g.states.getD idx.toNat ⟨0, 0⟩
      .ok (g.partitions.getD st.partition []) (g.actions.getD st.actions [])
        { t with step := t.step + 1 }

/-! ### Concrete executions used by the theorems below -/

/-- Fully connected 5-node network. -/
def exPartFull : PartitionT := partitionOfNetwork [[1, 2, 3, 4, 5]]

/-- Only nodes 1 and 2 connected. -/
def exPart12 : PartitionT := partitionOfNetwork [[1, 2]]

/-- Only nodes 3 and 4 connected. -/
def exPart34 : PartitionT := partitionOfNetwork [[3, 4]]

/-- Nodes 1–2 and 3–4 connected. -/
def exPart12_34 : PartitionT := partitionOfNetwork [[1, 2], [3, 4]]

/-- Node 1 isolated from the 2–3–4–5 clique. -/
def exPart2345 : PartitionT := partitionOfNetwork [[2, 3, 4, 5]]

/-- Only nodes 1 and 3 connected. -/
def exPart13 : PartitionT := partitionOfNetwork [[1, 3]]

/-- The Actions entry `{id: true}` produced by `WithLeaders`. -/
def exLeader (i : Int) : ActionsT := [(i, true)]

/-- The no-leader Actions entry. -/
def exNoLeader : ActionsT := []

/-- Five replicas with `R1Majority = 2`, `R2Majority = 4`: any phase-1
quorum of 2 nodes intersects any phase-2 quorum of 4 nodes out of 5. -/
def exInit : RState := ⟨initCluster [1, 2, 3, 4, 5] 2 4, []⟩

/-- A 5-step schedule on which replicas 1 and 3 propose the same ballot
in split partitions, both reach the phase-1 quorum, and both learn:
replica 1 learns `[3]` while replica 3 learns `[1]`. -/
def exSchedC1 : List (PartitionT × ActionsT) :=
  [(exPart12, exLeader 1), (exPart34, exLeader 3), (exPart12_34, exNoLeader),
   (exPartFull, exNoLeader), (exPartFull, exNoLeader)]

/-- The propose+deliver phases of the fifth step of `exSchedC1`, exposing
the replica states at the moment the agreement check runs. -/
def exC1Step5 : Except String (List Paxos × List Message) :=
  match runSteps (exSchedC1.take 4) exInit with
  | .error e => .error e
  | .ok s =>
    let (cl, msgs) := proposeCollect exNoLeader s.cluster s.messages
    deliverAll exPartFull cl msgs []

/-- A 12-step error-free schedule on which replica 3 first learns `[1]`
(step 5) and later learns `[3]` (step 12). -/
def exSchedC2 : List (PartitionT × ActionsT) :=
  [(exPart12, exLeader 1), (exPart34, exLeader 3), (exPart12_34, exNoLeader),
   (exPartFull, exNoLeader), (exPart2345, exNoLeader),
   (exPart12, exLeader 1), (exPart12, exNoLeader), (exPart13, exNoLeader),
   (exPart34, exLeader 3), (exPart34, exNoLeader),
   (exPart2345, exNoLeader), (exPart2345, exNoLeader)]

/-- The partitions table the two counterexample schedules draw from
(constructible via `WithExplicitPartitions`). -/
def exPartitions : List PartitionT :=
  [exPart12, exPart34, exPart12_34, exPartFull, exPart2345, exPart13]

/-- The actions table the two counterexample schedules draw from
(constructible via `WithLeaders(1, 3)`). -/
def exActions : List ActionsT := [exNoLeader, exLeader 1, exLeader 3]

/-- A replica used by the stale/misdirected message theorems: it has
proposed once, so its ballot is 1. -/
def exBallot1 : Paxos :=
  Paxos.Propose { ID := 1, Nodes := [1, 2, 3], R1Majority := 2, R2Majority := 2 } (some [1])

/-- A message addressed to node 2 with a stale ballot, handed to
replica 1. -/
def exStaleMisdirected : Message :=
  { From := 3, To := 2, Typ := .promise, Ballot := 0 }

/-- A corrupted replay record: the meta bytes of `writeRecord` followed
by the payload with bit `i` flipped. -/
def corruptRecord (states : List Int) (i : Nat) : List Nat :=
  let buf := Marshal states
  toLEBytes 4 buf.length ++ toLEBytes 4 (crc32c buf) ++ flipBit buf i

/-- The claim's error conditions for `NewGen`: a leaders option before
any replicas option, unset actions, unset partitions, or an
actions-times-partitions product above 32767. -/
def NewGenErrCond (opts : List GenOption) : Prop :=
  leadersBeforeReplicas false opts = true ∨
  ∃ g : GenConfig, applyAll {} opts = .ok g ∧
    (g.actions = none ∨ g.partitions = none ∨
     (((g.actions.getD []).length * (g.partitions.getD []).length : Int) > 32767))

/-- The condition under which `NewGen` panics rather than returning:
well-configured tables but a negative configured step limit. -/
def NewGenFaultCond (opts : List GenOption) : Prop :=
  ∃ g : GenConfig, applyAll {} opts = .ok g ∧ g.actions ≠ none ∧ g.partitions ≠ none ∧
    (((g.actions.getD []).length * (g.partitions.getD []).length : Int) ≤ 32767) ∧
    effStepLimit g < 0

/-- Options triggering the `NewGen` runtime fault: a well-formed
configuration except for a negative step limit. -/
def exC9opts : List GenOption :=
  [.withReplicas [1], .withLeaders [1], .withExplicitPartitions [[[1]]], .withSteps (-1)]

/-- The configuration `applyAll` produces from `exC9opts`. -/
def exC9config : GenConfig :=
  { stepLimit := -1, nodes := some [1],
    partitions := some [partitionOfNetwork [[1]]],
    actions := some [[], [(1, true)]] }

/-- A small constructed generator table set (one action, one partition)
used to exercise `TestCase.Next` on a replayed index. -/
def exTables : GenTables :=
  { stepLimit := 10, nodes := [1], partitions := [[]], actions := [[]],
    states := stepStatesTable 1 1 }

/-!
## Theorems

Helper lemmas come first; each claim's theorem (and its witness or
counterexample) is marked with the claim id in its doc comment.
-/

theorem propose_single (p : Paxos) (v : Value) (h1 : p.ID = 1) (h2 : p.Nodes = [1]) :
    (p.Propose v).ID = 1 ∧ (p.Propose v).Nodes = [1] ∧
    (p.Propose v).LearnedValue = p.LearnedValue ∧
    (p.Propose v).Messages = p.Messages := by
  simp only [Paxos.Propose, Paxos.updatePromise, h1, h2]
  split <;> simp

theorem step_single (net : PartitionT) (acts : ActionsT) (p : Paxos)
    (h1 : p.ID = 1) (h2 : p.Nodes = [1]) (h3 : p.LearnedValue = none)
    (h4 : p.Messages = []) :
    ∃ q : Paxos, paxosStep net acts ⟨[p], []⟩ = .ok ⟨[q], []⟩ ∧
      q.ID = 1 ∧ q.Nodes = [1] ∧ q.LearnedValue = none ∧ q.Messages = [] := by
  by_cases hl : IsLeader acts p.ID
  · obtain ⟨k1, k2, k3, k4⟩ := propose_single p (some [byteOf p.ID]) h1 h2
    refine ⟨{ p.Propose (some [byteOf p.ID]) with Messages := [] }, ?_, k1, k2, ?_, rfl⟩
    · simp [paxosStep, proposeCollect, hl, deliverAll, checkLearned, k4, h4, k3, h3]
    · simpa [k3]
  · exact ⟨{ p with Messages := [] }, by simp [paxosStep, proposeCollect, hl, deliverAll, checkLearned, h4, h3], h1, h2, h3, rfl⟩

theorem runSteps_single : ∀ (sched : List (PartitionT × ActionsT)) (p : Paxos),
    p.ID = 1 → p.Nodes = [1] → p.LearnedValue = none → p.Messages = [] →
    ∃ q : Paxos, runSteps sched ⟨[p], []⟩ = .ok ⟨[q], []⟩ ∧
      q.ID = 1 ∧ q.Nodes = [1] ∧ q.LearnedValue = none ∧ q.Messages = []
  | [], p, h1, h2, h3, h4 => ⟨p, rfl, h1, h2, h3, h4⟩
  | (net, acts) :: tl, p, h1, h2, h3, h4 => by
    obtain ⟨q, hq, k1, k2, k3, k4⟩ := step_single net acts p h1 h2 h3 h4
    obtain ⟨r, hr, m1, m2, m3, m4⟩ := runSteps_single tl q k1 k2 k3 k4
    exact ⟨r, by simp [runSteps, hq, hr], m1, m2, m3, m4⟩

/-- C8: delivering a message whose ballot is below the replica's current
ballot is a complete no-op: `Paxos.Next` returns the replica unchanged
(every field, including the outbox). -/
theorem C8_stale_message_noop (p : Paxos) (m : Message) (h : m.Ballot < p.ballot) :
    p.Next m = .ok p := by
  unfold Paxos.Next
  rw [if_pos h]

/-- C8 witness: the no-op evaluated on a replica at ballot 1 and a
stale ballot-0 message. -/
theorem C8_stale_message_noop_witness :
    exStaleMisdirected.Ballot < exBallot1.ballot ∧ Paxos.Next exBallot1 exStaleMisdirected = .ok exBallot1 :=
  ⟨by decide, C8_stale_message_noop exBallot1 exStaleMisdirected (by decide)⟩

/-- C7 counterexample: a misdirected message (`To = 2` handed to
replica 1) with a stale ballot is dropped silently rather than aborting,
because the stale-ballot check precedes the id check; this refutes the
claim that every misdirected delivery panics regardless of the other
fields. -/
theorem C7_misdirected_counterexample :
    exStaleMisdirected.To ≠ exBallot1.ID ∧
    Paxos.Next exBallot1 exStaleMisdirected = .ok exBallot1 := by
  exact ⟨by decide, rfl⟩

/-- C7 amended: a misdirected message aborts with the id-mismatch
panic provided its ballot is not below the replica's current ballot. -/
theorem C7_misdirected_amended (p : Paxos) (m : Message)
    (hb : ¬ m.Ballot < p.ballot) (hid : m.To ≠ p.ID) :
    p.Next m = .error "id mismatch" := by
  unfold Paxos.Next
  rw [if_neg hb, if_pos hid]

/-- C7 amended witness: the panic evaluated on a concrete fresh-ballot
misdirected message. -/
theorem C7_misdirected_amended_witness :
    ¬ ((3 : Int) < exBallot1.ballot) ∧ ((2 : Int) ≠ exBallot1.ID) ∧
    Paxos.Next exBallot1 { From := 3, To := 2, Typ := .promise, Ballot := 3 } = .error "id mismatch" :=
  ⟨by decide, by decide,
   C7_misdirected_amended exBallot1 _ (by decide) (by decide)⟩

/-- C6 amended: in a single-replica cluster with both majorities 1,
every schedule runs without error and the replica's learned value stays
null — the phase-1 trigger only fires on Promise delivery and a lone
node never receives messages, so it never learns anything (and P1/P2
hold trivially). -/
theorem C6_single_replica_amended (sched : List (PartitionT × ActionsT)) :
    ∃ q : Paxos, runSteps sched ⟨initCluster [1] 1 1, []⟩ = .ok ⟨[q], []⟩ ∧
      q.LearnedValue = none := by
  obtain ⟨q, hq, _, _, h3, _⟩ := runSteps_single sched
    { ID := 1, Nodes := [1], R1Majority := 1, R2Majority := 1 } rfl rfl rfl rfl
  exact ⟨q, hq, h3⟩

/-- C6 counterexample: after a step in which node 1 of the
single-replica cluster is leader and proposes, its learned value is
null, not its proposed value `[1]` as the claim states. -/
theorem C6_single_replica_counterexample :
    ∃ s : RState,
      runSteps [(partitionOfNetwork [[1]], exLeader 1)] ⟨initCluster [1] 1 1, []⟩ = .ok s ∧
      learnedOf s.cluster 1 = none ∧ learnedOf s.cluster 1 ≠ some [1] := by
  refine ⟨_, rfl, rfl, by decide⟩

/-- C1: the agreement claim evaluated at a failing input.  With five
replicas and `R1Majority = 2`, `R2Majority = 4` every phase-1 quorum
intersects every phase-2 quorum (first conjunct), the five-step schedule
is drawn from generator-constructible partition and action tables
(second conjunct), yet after the fifth step's deliveries replica 1 has
learned `[3]` while replica 3 has learned `[1]`, and the step function
reports the agreement failure: replicas 1 and 3 propose the same ballot
and both reach their phase-1 quorum, which quorum intersection does not
prevent. -/
theorem C1_agreement_failure_eval :
    (∀ A B : Finset (Fin 5), A.card = 2 → B.card = 4 → (A ∩ B).Nonempty) ∧
    (∀ pa ∈ exSchedC1, pa.1 ∈ exPartitions ∧ pa.2 ∈ exActions) ∧
    (exC1Step5.toOption.map fun pr => (learnedOf pr.1 1, learnedOf pr.1 3)) =
      some (some [3], some [1]) ∧
    runSteps exSchedC1 exInit = .error "learned values differ" := by
  refine ⟨by decide, by decide, rfl, rfl⟩

/-- C2: learned-value immutability evaluated at a failing input.  On a
twelve-step error-free run of the step function (same cluster as C1),
replica 3's learned value is `[1]` after step 5 and `[3]` after step 12
of the same execution — it changes after becoming non-null. -/
theorem C2_learned_value_changes_eval :
    (runSteps (exSchedC2.take 5) exInit).toOption.map (fun s => learnedOf s.cluster 3) =
      some (some [1]) ∧
    (runSteps exSchedC2 exInit).toOption.map (fun s => learnedOf s.cluster 3) =
      some (some [3]) ∧
    (∀ pa ∈ exSchedC2, pa.1 ∈ exPartitions ∧ pa.2 ∈ exActions) := by
  refine ⟨rfl, rfl, by decide⟩

theorem toLE_length (N : Nat) : ∀ S k, (toLE N S k).length = S
  | 0, _ => rfl
  | S + 1, k => by simp [toLE, toLE_length N S]

theorem toLE_zero (N : Nat) : ∀ S, toLE N S 0 = List.replicate S 0
  | 0 => rfl
  | S + 1 => by simp [toLE, toLE_zero N S, List.replicate_succ]

theorem incLE_toLE (N : Nat) (hN : 1 ≤ N) : ∀ S k, k + 1 ≤ N ^ S →
    incLE N (toLE N S k) = (toLE N S (k + 1), decide (k + 1 = N ^ S))
  | 0, k, h => by
      have hk : k = 0 := by simpa using Nat.lt_one_iff.mp h
      subst hk
      simp [toLE, incLE]
  | S + 1, k, h => by
      have hN0 : 0 < N := hN
      have hk := Nat.div_add_mod k N
      have hrN : k % N < N := Nat.mod_lt _ hN0
      by_cases hlt : k % N + 1 < N
      · have h1 : k + 1 = N * (k / N) + (k % N + 1) := by omega
        have hmod : (k + 1) % N = k % N + 1 := by
          rw [h1, Nat.mul_add_mod, Nat.mod_eq_of_lt hlt]
        have hdiv : (k + 1) / N = k / N := by
          rw [h1, Nat.mul_add_div hN0, Nat.div_eq_of_lt hlt, Nat.add_zero]
        have hne : k + 1 ≠ N ^ (S + 1) := by
          intro heq
          rw [heq] at hmod
          have h0 : N ^ (S + 1) % N = 0 := by rw [pow_succ, Nat.mul_mod_left]
          omega
        simp only [toLE, incLE, if_pos hlt, hmod, hdiv, decide_eq_false hne]
      · have hr : k % N + 1 = N := by omega
        have hms : N * (k / N + 1) = N * (k / N) + N := by ring
        have h1 : k + 1 = N * (k / N + 1) := by omega
        have hps : N ^ (S + 1) = N * N ^ S := by rw [pow_succ, Nat.mul_comm]
        have hq1 : k / N + 1 ≤ N ^ S := by
          have hmul : N * (k / N + 1) ≤ N * N ^ S := by omega
          exact Nat.le_of_mul_le_mul_left hmul hN0
        have ih := incLE_toLE N hN S (k / N) hq1
        have hmod : (k + 1) % N = 0 := by rw [h1, Nat.mul_mod_right]
        have hdiv : (k + 1) / N = k / N + 1 := by
          rw [h1, Nat.mul_div_cancel_left _ hN0]
        have hiff : (k + 1 = N ^ (S + 1)) ↔ (k / N + 1 = N ^ S) := by
          rw [h1, pow_succ, Nat.mul_comm (N ^ S) N]
          exact ⟨fun he => Nat.eq_of_mul_eq_mul_left hN0 he,
                 fun he => by rw [he]⟩
        simp only [toLE, incLE, if_neg hlt, ih, hmod, hdiv,
          decide_eq_decide.mpr hiff]

theorem piState_le (N S : Nat) (hN : 1 ≤ N) : ∀ k, k ≤ N ^ S →
    piState N S k = ⟨decide (k = N ^ S), toLE N S k⟩
  | 0, _ => by
      have h0 : (0 : Nat) ≠ N ^ S := by
        have : 0 < N ^ S := Nat.pos_pow_of_pos S hN
        omega
      simp [piState, piInit, toLE_zero, decide_eq_false h0]
  | k + 1, h => by
      have hk := piState_le N S hN k (Nat.le_of_succ_le h)
      have hkne : k ≠ N ^ S := by omega
      simp only [piState, hk, piNext, decide_eq_false hkne, Bool.false_eq_true,
        if_false, incLE_toLE N hN S k h]

theorem piState_past (N S : Nat) (hN : 1 ≤ N) : ∀ d,
    piState N S (N ^ S + d) = ⟨true, toLE N S (N ^ S)⟩
  | 0 => by
      have := piState_le N S hN (N ^ S) le_rfl
      simpa using this
  | d + 1 => by
      have ih := piState_past N S hN d
      show (piNext N (piState N S (N ^ S + d))).2 = _
      rw [ih]
      simp [piNext]

theorem piOut_lt (N S k : Nat) (hN : 1 ≤ N) (h : k < N ^ S) :
    piOut N S k = some (toLE N S k) := by
  have hk := piState_le N S hN k (Nat.le_of_lt h)
  have hkne : k ≠ N ^ S := by omega
  simp [piOut, piNext, hk, decide_eq_false hkne]

theorem piOut_ge (N S k : Nat) (hN : 1 ≤ N) (h : N ^ S ≤ k) :
    piOut N S k = none := by
  have hd : k = N ^ S + (k - N ^ S) := by omega
  rw [piOut, hd, piState_past N S hN]
  simp [piNext]

theorem fromLE_toLE (N : Nat) (hN : 1 ≤ N) : ∀ S k, k < N ^ S →
    fromLE N (toLE N S k) = k
  | 0, k, h => by
      have : k = 0 := by simpa using Nat.lt_one_iff.mp (by simpa using h)
      subst this
      rfl
  | S + 1, k, h => by
      have hN0 : 0 < N := hN
      have hq : k / N < N ^ S := by
        rw [Nat.div_lt_iff_lt_mul hN0]
        calc k < N ^ (S + 1) := h
        _ = N ^ S * N := by rw [pow_succ]
      simp only [toLE, fromLE, fromLE_toLE N hN S (k / N) hq]
      exact Nat.mod_add_div k N

theorem stepStatesTable_length : ∀ A P, (stepStatesTable A P).length = A * P := by
  intro A P
  induction A with
  | zero => simp [stepStatesTable]
  | succ A ih =>
      rw [stepStatesTable, List.range_succ, List.flatMap_append] at *
      simp only [List.length_append, List.flatMap_cons, List.flatMap_nil,
        List.append_nil, List.length_map, List.length_range] at *
      rw [ih]
      ring

/-- C3: for every successfully constructed generator (`A ≥ 1` actions,
`P ≥ 1` partitions, step limit `S ≥ 1`, at most 32767 states), the
product iterator emits a state-index vector on each of its first
`(A·P)^S` calls, these vectors are pairwise distinct, and every later
call returns null. -/
theorem C3_generator_exhaustiveness (A P S : Nat) (hA : 1 ≤ A) (hP : 1 ≤ P)
    (_hS : 1 ≤ S) (_hbound : (stepStatesTable A P).length ≤ 32767) :
    (stepStatesTable A P).length = A * P ∧
    (∀ k, k < (A * P) ^ S → piOut (A * P) S k = some (toLE (A * P) S k)) ∧
    (∀ k1 k2, k1 < (A * P) ^ S → k2 < (A * P) ^ S →
      piOut (A * P) S k1 = piOut (A * P) S k2 → k1 = k2) ∧
    (∀ k, (A * P) ^ S ≤ k → piOut (A * P) S k = none) := by
  have hN : 1 ≤ A * P := Nat.one_le_iff_ne_zero.mpr (by positivity)
  refine ⟨stepStatesTable_length A P, fun k hk => piOut_lt _ _ _ hN hk, ?_, fun k hk => piOut_ge _ _ _ hN hk⟩
  intro k1 k2 h1 h2 heq
  rw [piOut_lt _ _ _ hN h1, piOut_lt _ _ _ hN h2] at heq
  have := congrArg (fromLE (A * P)) (Option.some_injective _ heq)
  rwa [fromLE_toLE _ hN S k1 h1, fromLE_toLE _ hN S k2 h2] at this

/-- C3 witness: exhaustiveness instantiated at two actions, one
partition, and step limit 2, plus two concretely evaluated calls. -/
theorem C3_generator_exhaustiveness_witness :
    ((1 ≤ 2 ∧ 1 ≤ 1 ∧ 1 ≤ 2 ∧ (stepStatesTable 2 1).length ≤ 32767) ∧
      ((stepStatesTable 2 1).length = 2 * 1 ∧
       (∀ k, k < (2 * 1) ^ 2 → piOut (2 * 1) 2 k = some (toLE (2 * 1) 2 k)) ∧
       (∀ k1 k2, k1 < (2 * 1) ^ 2 → k2 < (2 * 1) ^ 2 →
         piOut (2 * 1) 2 k1 = piOut (2 * 1) 2 k2 → k1 = k2) ∧
       (∀ k, (2 * 1) ^ 2 ≤ k → piOut (2 * 1) 2 k = none))) ∧
    piOut 2 2 3 = some [1, 1] ∧ piOut 2 2 4 = none :=
  ⟨⟨⟨by decide, by decide, by decide, by decide⟩,
    C3_generator_exhaustiveness 2 1 2 (by decide) (by decide) (by decide) (by decide)⟩,
   by decide, by decide⟩

theorem enc16_eq (v : Int) :
    enc16 v = [(v.emod 65536).toNat % 256, (v.emod 65536).toNat / 256 % 256] := rfl

theorem emod65536_lt (v : Int) : 0 ≤ v.emod 65536 ∧ v.emod 65536 < 65536 :=
  ⟨Int.emod_nonneg v (by norm_num), Int.emod_lt_of_pos v (by norm_num)⟩

theorem emod65536_of_nonneg (v : Int) (h1 : 0 ≤ v) (h2 : v < 65536) :
    v.emod 65536 = v := Int.emod_eq_of_lt h1 h2

theorem emod65536_of_neg (v : Int) (h1 : -65536 ≤ v) (h2 : v < 0) :
    v.emod 65536 = v + 65536 := by
  have h3 : (v + 65536 * 1).emod 65536 = v.emod 65536 := Int.add_mul_emod_self_left v 65536 1
  rw [← h3]
  norm_num
  exact Int.emod_eq_of_lt (by omega) (by omega)

theorem dec16_enc16 (v : Int) (h1 : -32768 ≤ v) (h2 : v < 32768) :
    dec16 ((v.emod 65536).toNat % 256) ((v.emod 65536).toNat / 256 % 256) = v := by
  obtain ⟨he1, he2⟩ := emod65536_lt v
  set e : Int := v.emod 65536 with hedef
  have hx : (e.toNat : Int) = e := Int.toNat_of_nonneg he1
  have hxlt : e.toNat < 65536 := by omega
  have hdivlt : e.toNat / 256 < 256 := by omega
  have hu : e.toNat % 256 + 256 * (e.toNat / 256 % 256) = e.toNat := by
    rw [Nat.mod_eq_of_lt hdivlt]
    exact Nat.mod_add_div e.toNat 256
  rcases le_or_lt 0 v with hv | hv
  · have hev : e = v := emod65536_of_nonneg v hv (by omega)
    unfold dec16
    rw [hu]
    have : e.toNat < 32768 := by omega
    rw [if_pos this]
    omega
  · have hev : e = v + 65536 := emod65536_of_neg v (by omega) hv
    unfold dec16
    rw [hu]
    have : ¬ e.toNat < 32768 := by omega
    rw [if_neg this]
    omega

theorem decStates_enc16 (v : Int) (rest : List Nat) (h1 : -32768 ≤ v) (h2 : v < 32768) :
    decStates (enc16 v ++ rest) = v :: decStates rest := by
  rw [enc16_eq, List.cons_append, List.cons_append, List.nil_append]
  show dec16 _ _ :: decStates rest = v :: decStates rest
  rw [dec16_enc16 v h1 h2]

theorem flatMap_enc16_length (states : List Int) :
    (states.flatMap enc16).length = 2 * states.length := by
  induction states with
  | nil => rfl
  | cons v rest ih =>
      rw [List.flatMap_cons, List.length_append, ih, enc16_eq]
      simp [List.length_cons]
      ring

theorem decStates_flatMap (states : List Int)
    (hr : ∀ v ∈ states, -32768 ≤ v ∧ v < 32768) :
    decStates (states.flatMap enc16) = states := by
  induction states with
  | nil => rfl
  | cons v rest ih =>
      rw [List.flatMap_cons,
        decStates_enc16 v _ (hr v (by simp)).1 (hr v (by simp)).2,
        ih fun w hw => hr w (by simp [hw])]

theorem unmarshal_marshal_eq (states : List Int)
    (hr : ∀ v ∈ states, -32768 ≤ v ∧ v < 32768) (hl : states.length < 2 ^ 63) :
    Unmarshal (Marshal states) = some states := by
  have hlen8 : (toLEBytes 8 states.length).length = 8 := toLE_length 256 8 _
  have hbody : (states.flatMap enc16).length = 2 * states.length :=
    flatMap_enc16_length states
  have hfrom : fromLEBytes (toLEBytes 8 states.length) = states.length := by
    apply fromLE_toLE 256 (by norm_num) 8
    calc states.length < 2 ^ 63 := hl
    _ < 256 ^ 8 := by norm_num
  have key : ∀ (l1 l2 : List Nat), l1.length = 8 →
      (l1 ++ l2).take 8 = l1 ∧ (l1 ++ l2).drop 8 = l2 := by
    intro l1 l2 h
    rw [← h, List.take_left, List.drop_left]
    exact ⟨rfl, rfl⟩
  obtain ⟨ht, hd⟩ := key _ (states.flatMap enc16) hlen8
  unfold Marshal Unmarshal
  rw [ht, hd, hfrom]
  have hge : 8 ≤ (toLEBytes 8 states.length ++ states.flatMap enc16).length := by
    rw [List.length_append, hlen8]
    omega
  rw [if_pos hge, if_pos hl, ← hbody, List.take_length, if_pos rfl,
    decStates_flatMap states hr]

theorem xor_div_two (a b : Nat) : (a ^^^ b) / 2 = a / 2 ^^^ b / 2 := by
  apply Nat.eq_of_testBit_eq
  intro i
  rw [Nat.testBit_div_two, Nat.testBit_xor, Nat.testBit_xor,
    Nat.testBit_div_two, Nat.testBit_div_two]

theorem xor_parity (a b : Nat) :
    decide ((a ^^^ b) % 2 = 1) = ((decide (a % 2 = 1)).xor (decide (b % 2 = 1))) := by
  rw [← Nat.testBit_zero, ← Nat.testBit_zero, ← Nat.testBit_zero, Nat.testBit_xor]

theorem xor_left_comm' (a b c : Nat) : a ^^^ (b ^^^ c) = b ^^^ (a ^^^ c) := by
  rw [← Nat.xor_assoc, Nat.xor_comm a b, Nat.xor_assoc]

theorem xor_xor_self' (a b : Nat) : a ^^^ (a ^^^ b) = b := by
  rw [← Nat.xor_assoc, Nat.xor_self, Nat.zero_xor]

theorem crcT_xor (a b : Nat) : crcT a ^^^ crcT b = crcT (a ^^^ b) := by
  unfold crcT
  rw [xor_div_two]
  have hp := xor_parity a b
  rcases Nat.mod_two_eq_zero_or_one a with ha | ha <;>
    rcases Nat.mod_two_eq_zero_or_one b with hb | hb <;>
    simp only [ha, hb] at hp ⊢ <;>
    simp at hp <;>
    simp [hp, Nat.xor_assoc, Nat.xor_comm, xor_left_comm', xor_xor_self', Nat.xor_self, Nat.xor_zero]

theorem crcT_lt (x : Nat) (h : x < 2 ^ 32) : crcT x < 2 ^ 32 := by
  unfold crcT
  apply Nat.xor_lt_two_pow (by omega)
  split
  · norm_num [CASTAGNOLI]
  · positivity

theorem crcT_ne_zero (x : Nat) (hx : x ≠ 0) (h : x < 2 ^ 32) : crcT x ≠ 0 := by
  unfold crcT
  rcases Nat.mod_two_eq_zero_or_one x with he | ho
  · rw [if_neg (by omega), Nat.xor_zero]
    omega
  · rw [if_pos ho]
    intro h0
    have hc := Nat.xor_eq_zero.mp h0
    have : CASTAGNOLI < 2 ^ 31 := by rw [← hc]; omega
    norm_num [CASTAGNOLI] at this

theorem crcShift_xor (k : Nat) : ∀ a b, crcShift k a ^^^ crcShift k b = crcShift k (a ^^^ b) := by
  induction k with
  | zero => intro a b; rfl
  | succ k ih =>
      intro a b
      show crcShift k (crcT a) ^^^ crcShift k (crcT b) = crcShift k (crcT (a ^^^ b))
      rw [ih, crcT_xor]

theorem crcShift_lt (k : Nat) : ∀ a, a < 2 ^ 32 → crcShift k a < 2 ^ 32 := by
  induction k with
  | zero => intro a h; exact h
  | succ k ih => intro a h; exact ih _ (crcT_lt a h)

theorem crcShift_ne_zero (k : Nat) : ∀ a, a ≠ 0 → a < 2 ^ 32 → crcShift k a ≠ 0 := by
  induction k with
  | zero => intro a h _; exact h
  | succ k ih => intro a h hlt; exact ih _ (crcT_ne_zero a h hlt) (crcT_lt a hlt)

theorem processByte_xor (c1 c2 b : Nat) :
    processByte c1 b ^^^ processByte c2 b = crcShift 8 (c1 ^^^ c2) := by
  unfold processByte
  rw [crcShift_xor]
  congr 1
  rw [Nat.xor_assoc, xor_left_comm' b c2 b, Nat.xor_self, Nat.xor_zero]

theorem foldl_processByte_ne (l : List Nat) : ∀ c1 c2, c1 ^^^ c2 ≠ 0 → c1 ^^^ c2 < 2 ^ 32 →
    l.foldl processByte c1 ^^^ l.foldl processByte c2 ≠ 0 := by
  induction l with
  | nil => intro c1 c2 h _; exact h
  | cons b rest ih =>
      intro c1 c2 h hlt
      show rest.foldl processByte (processByte c1 b) ^^^
        rest.foldl processByte (processByte c2 b) ≠ 0
      apply ih
      · rw [processByte_xor]
        exact crcShift_ne_zero 8 _ h hlt
      · rw [processByte_xor]
        exact crcShift_lt 8 _ hlt

theorem processByte_byte_xor (c b1 b2 : Nat) :
    processByte c b1 ^^^ processByte c b2 = crcShift 8 (b1 ^^^ b2) := by
  unfold processByte
  rw [crcShift_xor]
  congr 1
  rw [Nat.xor_assoc, xor_left_comm' b1 c b2, xor_xor_self']

theorem foldl_flip_ne : ∀ (p : List Nat) (c k j : Nat), k < p.length → j < 8 →
    p.foldl processByte c ^^^ (p.set k (p.getD k 0 ^^^ 2 ^ j)).foldl processByte c ≠ 0
  | [], _, k, _, hk, _ => absurd hk (by simp)
  | b :: rest, c, 0, j, _, hj => by
      show rest.foldl processByte (processByte c b) ^^^
        rest.foldl processByte (processByte c (b ^^^ 2 ^ j)) ≠ 0
      have hpow : (2 : Nat) ^ j < 2 ^ 32 := by
        calc (2 : Nat) ^ j ≤ 2 ^ 7 := Nat.pow_le_pow_right (by norm_num) (by omega)
        _ < 2 ^ 32 := by norm_num
      have hd : processByte c b ^^^ processByte c (b ^^^ 2 ^ j) = crcShift 8 (2 ^ j) := by
        rw [processByte_byte_xor, xor_xor_self']
      apply foldl_processByte_ne
      · rw [hd]
        exact crcShift_ne_zero 8 _ (by positivity) hpow
      · rw [hd]
        exact crcShift_lt 8 _ hpow
  | b :: rest, c, k + 1, j, hk, hj => by
      show rest.foldl processByte (processByte c b) ^^^
        (rest.set k (rest.getD k 0 ^^^ 2 ^ j)).foldl processByte (processByte c b) ≠ 0
      exact foldl_flip_ne rest (processByte c b) k j (by simpa using hk) hj

theorem crc32c_flip_ne (p : List Nat) (i : Nat) (h : i < 8 * p.length) :
    crc32c (flipBit p i) ≠ crc32c p := by
  have hk : i / 8 < p.length := by omega
  have hj : i % 8 < 8 := Nat.mod_lt _ (by norm_num)
  have hne := foldl_flip_ne p MASK32 (i / 8) (i % 8) hk hj
  unfold crc32c flipBit
  intro heq
  apply hne
  have : (p.set (i / 8) (p.getD (i / 8) 0 ^^^ 2 ^ (i % 8))).foldl processByte MASK32 =
      p.foldl processByte MASK32 := by
    have := congrArg (fun x => x ^^^ MASK32) heq
    simpa [Nat.xor_assoc, Nat.xor_self, Nat.xor_zero] using this
  rw [this, Nat.xor_self]

theorem record_parts : ∀ (l1 l2 l3 : List Nat), l1.length = 4 → l2.length = 4 →
    (l1 ++ l2 ++ l3).take 4 = l1 ∧ ((l1 ++ l2 ++ l3).drop 4).take 4 = l2 ∧
    (l1 ++ l2 ++ l3).drop 8 = l3 ∧ 8 ≤ (l1 ++ l2 ++ l3).length := by
  intro l1 l2 l3 h1 h2
  have hassoc : l1 ++ l2 ++ l3 = l1 ++ (l2 ++ l3) := by rw [List.append_assoc]
  refine ⟨?_, ?_, ?_, ?_⟩
  · rw [hassoc, ← h1, List.take_left]
  · rw [hassoc, ← h1, List.drop_left, h1, ← h2, List.take_left]
  · have h12 : (l1 ++ l2).length = 8 := by rw [List.length_append, h1, h2]
    rw [← h12, List.drop_left]
  · rw [List.length_append, List.length_append, h1, h2]
    omega

theorem toLE_mem_lt (N : Nat) (hN : 0 < N) : ∀ S k b, b ∈ toLE N S k → b < N
  | 0, _, _, hb => absurd hb (by simp [toLE])
  | S + 1, k, b, hb => by
      rcases List.mem_cons.mp hb with h | h
      · subst h; exact Nat.mod_lt _ hN
      · exact toLE_mem_lt N hN S (k / N) b h

theorem Marshal_mem_lt (states : List Int) : ∀ b ∈ Marshal states, b < 256 := by
  intro b hb
  rcases List.mem_append.mp hb with h | h
  · exact toLE_mem_lt 256 (by norm_num) 8 _ b h
  · obtain ⟨v, _, hv⟩ := List.mem_flatMap.mp h
    exact toLE_mem_lt 256 (by norm_num) 2 _ b hv

theorem foldl_processByte_lt (l : List Nat) : ∀ c, (∀ b ∈ l, b < 256) → c < 2 ^ 32 →
    l.foldl processByte c < 2 ^ 32 := by
  induction l with
  | nil => intro c _ hc; exact hc
  | cons b rest ih =>
      intro c hb hc
      apply ih _ (fun x hx => hb x (by simp [hx]))
      unfold processByte
      apply crcShift_lt
      exact Nat.xor_lt_two_pow hc (lt_trans (hb b (by simp)) (by norm_num))

theorem crc32c_lt (p : List Nat) (hp : ∀ b ∈ p, b < 256) : crc32c p < 2 ^ 32 := by
  unfold crc32c
  exact Nat.xor_lt_two_pow (foldl_processByte_lt p MASK32 hp (by norm_num [MASK32]))
    (by norm_num [MASK32])

theorem readRecord_corrupt (states : List Int) (i : Nat)
    (hi : i < 8 * (Marshal states).length) (hlen : (Marshal states).length < 2 ^ 32) :
    readRecord (corruptRecord states i) = .error "replay file is corrupted" := by
  obtain ⟨ht4, hd4, hd8, hge⟩ := record_parts (toLEBytes 4 (Marshal states).length)
    (toLEBytes 4 (crc32c (Marshal states))) (flipBit (Marshal states) i)
    (toLE_length 256 4 _) (toLE_length 256 4 _)
  have hflen : (flipBit (Marshal states) i).length = (Marshal states).length := by
    unfold flipBit
    exact List.length_set _ _ _
  have hfrom1 : fromLEBytes (toLEBytes 4 (Marshal states).length) = (Marshal states).length := by
    apply fromLE_toLE 256 (by norm_num) 4
    calc (Marshal states).length < 2 ^ 32 := hlen
    _ = 256 ^ 4 := by norm_num
  have hfrom2 : fromLEBytes (toLEBytes 4 (crc32c (Marshal states))) = crc32c (Marshal states) := by
    apply fromLE_toLE 256 (by norm_num) 4
    calc crc32c (Marshal states) < 2 ^ 32 := crc32c_lt _ (Marshal_mem_lt states)
    _ = 256 ^ 4 := by norm_num
  unfold corruptRecord readRecord
  simp only [ht4, hd4, hd8, hfrom1, hflen, if_pos hge]
  rw [← hflen, List.take_length, if_pos rfl, hfrom2,
    if_pos (crc32c_flip_ne (Marshal states) i hi)]

theorem readRecord_writeRecord (states : List Int)
    (hr : ∀ v ∈ states, -32768 ≤ v ∧ v < 32768) (hl : states.length < 2 ^ 30) :
    readRecord (writeRecord states) = .ok states := by
  have hml : (Marshal states).length = 8 + 2 * states.length := by
    unfold Marshal
    rw [List.length_append, flatMap_enc16_length]
    rw [show (toLEBytes 8 states.length).length = 8 from toLE_length 256 8 _]
  have hlen : (Marshal states).length < 2 ^ 32 := by omega
  obtain ⟨ht4, hd4, hd8, hge⟩ := record_parts (toLEBytes 4 (Marshal states).length)
    (toLEBytes 4 (crc32c (Marshal states))) (Marshal states)
    (toLE_length 256 4 _) (toLE_length 256 4 _)
  have hfrom1 : fromLEBytes (toLEBytes 4 (Marshal states).length) = (Marshal states).length := by
    apply fromLE_toLE 256 (by norm_num) 4
    calc (Marshal states).length < 2 ^ 32 := hlen
    _ = 256 ^ 4 := by norm_num
  have hfrom2 : fromLEBytes (toLEBytes 4 (crc32c (Marshal states))) = crc32c (Marshal states) := by
    apply fromLE_toLE 256 (by norm_num) 4
    calc crc32c (Marshal states) < 2 ^ 32 := crc32c_lt _ (Marshal_mem_lt states)
    _ = 256 ^ 4 := by norm_num
  unfold writeRecord readRecord
  simp only [ht4, hd4, hd8, hfrom1, if_pos hge]
  rw [List.take_length, if_pos rfl, hfrom2, if_neg (by simp),
    unmarshal_marshal_eq states hr (by omega)]

theorem applyAll_err_iff : ∀ (opts : List GenOption) (g : GenConfig) (seen : Bool),
    (seen = true ↔ g.nodes ≠ none) →
    ((∃ e, applyAll g opts = .error e) ↔ leadersBeforeReplicas seen opts = true)
  | [], g, seen, hseen => by
      simp [applyAll, leadersBeforeReplicas]
  | .withExplicitPartitions networks :: rest, g, seen, hseen => by
      rw [show applyAll g (.withExplicitPartitions networks :: rest) =
        applyAll { g with partitions := appendPartitions g.partitions networks } rest from rfl]
      rw [show leadersBeforeReplicas seen (.withExplicitPartitions networks :: rest) =
        leadersBeforeReplicas seen rest from rfl]
      exact applyAll_err_iff rest _ seen hseen
  | .withReplicas replicas :: rest, g, seen, hseen => by
      rw [show applyAll g (.withReplicas replicas :: rest) =
        applyAll { g with nodes := some replicas } rest from rfl]
      rw [show leadersBeforeReplicas seen (.withReplicas replicas :: rest) =
        leadersBeforeReplicas true rest from rfl]
      exact applyAll_err_iff rest _ true (by simp)
  | .withLeaders leaders :: rest, g, seen, hseen => by
      by_cases hn : g.nodes = none
      · have hseenf : seen = false := by
          by_contra hc
          have ht : seen = true := by revert hc; cases seen <;> simp
          exact (hseen.mp ht) hn
        subst hseenf
        rw [show applyAll g (.withLeaders leaders :: rest) =
          .error "replicas must be configured earlier than leaders" from by
            simp [applyAll, applyOpt, hn]]
        rw [show leadersBeforeReplicas false (.withLeaders leaders :: rest) = true from rfl]
        simp
      · have hseent : seen = true := hseen.mpr hn
        subst hseent
        rw [show applyAll g (.withLeaders leaders :: rest) =
          applyAll { g with actions := some (g.actions.getD [] ++ leaderActions leaders) } rest from by
            simp [applyAll, applyOpt, hn]]
        rw [show leadersBeforeReplicas true (.withLeaders leaders :: rest) =
          leadersBeforeReplicas true rest from rfl]
        exact applyAll_err_iff rest _ true (by simpa using hn)
  | .withSteps n :: rest, g, seen, hseen => by
      rw [show applyAll g (.withSteps n :: rest) =
        applyAll { g with stepLimit := n } rest from rfl]
      rw [show leadersBeforeReplicas seen (.withSteps n :: rest) =
        leadersBeforeReplicas seen rest from rfl]
      exact applyAll_err_iff rest _ seen hseen

/-- C9 amended: `NewGen` returns an error exactly when a leaders option
precedes any replicas option, the actions table is unset, the partitions
table is unset, or the state count exceeds 32767; with none of those but
a negative configured step limit it panics (`make([]int16, n)` with
`n < 0`); otherwise construction succeeds. -/
theorem C9_construction_amended (opts : List GenOption) :
    ((∃ e, NewGen opts = .err e) ↔ NewGenErrCond opts) ∧
    (NewGen opts = .fault ↔ NewGenFaultCond opts) ∧
    ((∃ g, NewGen opts = .ok g) ↔ ¬ NewGenErrCond opts ∧ ¬ NewGenFaultCond opts) := by
  have herr := applyAll_err_iff opts {} false (by simp)
  cases hap : applyAll {} opts with
  | error e =>
      have hlb : leadersBeforeReplicas false opts = true := herr.mp ⟨e, hap⟩
      have hng : NewGen opts = .err e := by simp [NewGen, hap]
      refine ⟨⟨fun _ => Or.inl hlb, fun _ => ⟨e, hng⟩⟩, ?_, ?_⟩
      · constructor
        · intro hf; rw [hng] at hf; exact absurd hf (by simp)
        · rintro ⟨g', hg', _⟩; rw [hap] at hg'; exact absurd hg' (by simp)
      · constructor
        · rintro ⟨g', hg'⟩; rw [hng] at hg'; exact absurd hg' (by simp)
        · rintro ⟨hne, _⟩; exact absurd (Or.inl hlb) hne
  | ok g =>
      have hlb : leadersBeforeReplicas false opts = false := by
        cases h : leadersBeforeReplicas false opts
        · rfl
        · obtain ⟨e, he⟩ := herr.mpr h
          rw [hap] at he
          exact absurd he (by simp)
      have hokuniq : ∀ g' : GenConfig, applyAll {} opts = .ok g' → g' = g := by
        intro g' hg'
        rw [hap] at hg'
        exact (Except.ok.injEq _ _ ▸ hg').symm
      cases hact : g.actions with
      | none =>
          have hng : NewGen opts = .err "provide an option to configure actions" := by
            simp [NewGen, hap, hact]
          have hcond : NewGenErrCond opts := Or.inr ⟨g, hap, Or.inl hact⟩
          refine ⟨⟨fun _ => hcond, fun _ => ⟨_, hng⟩⟩, ?_, ?_⟩
          · constructor
            · intro hf; rw [hng] at hf; exact absurd hf (by simp)
            · rintro ⟨g', hg', hne, _⟩
              rw [hokuniq g' hg'] at hne
              exact absurd hact hne
          · constructor
            · rintro ⟨g', hg'⟩; rw [hng] at hg'; exact absurd hg' (by simp)
            · rintro ⟨hne, _⟩; exact absurd hcond hne
      | some acts =>
          cases hpart : g.partitions with
          | none =>
              have hng : NewGen opts = .err "provide an option to configure partitions" := by
                simp [NewGen, hap, hact, hpart]
              have hcond : NewGenErrCond opts := Or.inr ⟨g, hap, Or.inr (Or.inl hpart)⟩
              refine ⟨⟨fun _ => hcond, fun _ => ⟨_, hng⟩⟩, ?_, ?_⟩
              · constructor
                · intro hf; rw [hng] at hf; exact absurd hf (by simp)
                · rintro ⟨g', hg', _, hne, _⟩
                  rw [hokuniq g' hg'] at hne
                  exact absurd hpart hne
              · constructor
                · rintro ⟨g', hg'⟩; rw [hng] at hg'; exact absurd hg' (by simp)
                · rintro ⟨hne, _⟩; exact absurd hcond hne
          | some parts =>
              have hSS : ((stepStatesTable acts.length parts.length).length : Int) =
                  ((acts.length : Int) * (parts.length : Int)) := by
                rw [stepStatesTable_length]
                push_cast
                ring
              by_cases hbig : ((stepStatesTable acts.length parts.length).length : Int) > 32767
              · have hng : NewGen opts = .err "max number of possible states" := by
                  simp only [NewGen, hap, hact, hpart]
                  rw [if_pos hbig]
                have hcond : NewGenErrCond opts := by
                  refine Or.inr ⟨g, hap, Or.inr (Or.inr ?_)⟩
                  rw [hact, hpart]
                  simpa [← hSS] using hbig
                refine ⟨⟨fun _ => hcond, fun _ => ⟨_, hng⟩⟩, ?_, ?_⟩
                · constructor
                  · intro hf; rw [hng] at hf; exact absurd hf (by simp)
                  · rintro ⟨g', hg', _, _, hle, _⟩
                    rw [hokuniq g' hg'] at hle
                    rw [hact, hpart] at hle
                    simp only [Option.getD_some] at hle
                    rw [← hSS] at hle
                    omega
                · constructor
                  · rintro ⟨g', hg'⟩; rw [hng] at hg'; exact absurd hg' (by simp)
                  · rintro ⟨hne, _⟩; exact absurd hcond hne
              · have hnocond : ¬ NewGenErrCond opts := by
                  rintro (h | ⟨g', hg', hc⟩)
                  · rw [hlb] at h; exact absurd h (by simp)
                  · rw [hokuniq g' hg'] at hc
                    rcases hc with hc | hc | hc
                    · rw [hact] at hc; exact absurd hc (by simp)
                    · rw [hpart] at hc; exact absurd hc (by simp)
                    · rw [hact, hpart] at hc
                      simp only [Option.getD_some] at hc
                      rw [← hSS] at hc
                      omega
                by_cases hneg : effStepLimit g < 0
                · have hng : NewGen opts = .fault := by
                    simp only [NewGen, hap, hact, hpart]
                    rw [if_neg hbig, if_pos hneg]
                  have hfc : NewGenFaultCond opts := by
                    refine ⟨g, hap, by simp [hact], by simp [hpart], ?_, hneg⟩
                    rw [hact, hpart]
                    simp only [Option.getD_some]
                    rw [← hSS]
                    omega
                  refine ⟨?_, ⟨fun _ => hfc, fun _ => hng⟩, ?_⟩
                  · constructor
                    · rintro ⟨e, he⟩; rw [hng] at he; exact absurd he (by simp)
                    · intro hc; exact absurd hc hnocond
                  · constructor
                    · rintro ⟨g', hg'⟩; rw [hng] at hg'; exact absurd hg' (by simp)
                    · rintro ⟨_, hnf⟩; exact absurd hfc hnf
                · have hng : NewGen opts =
                      .ok ⟨effStepLimit g, g.nodes.getD [], parts, acts,
                        stepStatesTable acts.length parts.length⟩ := by
                    simp only [NewGen, hap, hact, hpart]
                    rw [if_neg hbig, if_neg hneg]
                  have hnofc : ¬ NewGenFaultCond opts := by
                    rintro ⟨g', hg', _, _, _, hsl⟩
                    rw [hokuniq g' hg'] at hsl
                    exact absurd hsl hneg
                  refine ⟨?_, ?_, ⟨fun _ => ⟨hnocond, hnofc⟩, fun _ => ⟨_, hng⟩⟩⟩
                  · constructor
                    · rintro ⟨e, he⟩; rw [hng] at he; exact absurd he (by simp)
                    · intro hc; exact absurd hc hnocond
                  · constructor
                    · intro hf; rw [hng] at hf; exact absurd hf (by simp)
                    · intro hc; exact absurd hc hnofc

/-- C9 counterexample: with replicas, leaders, and partitions all
configured but a negative step limit, none of the claim's error
conditions holds, yet `NewGen` neither returns an error nor succeeds —
it panics allocating the iterator's counter slice.  This refutes the
claim's otherwise-construction-succeeds part. -/
theorem C9_construction_counterexample :
    NewGen exC9opts = .fault ∧ (∀ e, NewGen exC9opts ≠ .err e) ∧
    (∀ g, NewGen exC9opts ≠ .ok g) ∧ ¬ NewGenErrCond exC9opts := by
  refine ⟨rfl, by intro e h; simp [show NewGen exC9opts = .fault from rfl] at h,
    by intro g h; simp [show NewGen exC9opts = .fault from rfl] at h, ?_⟩
  rintro (h | ⟨g, hg, hc⟩)
  · exact absurd h (by decide)
  · have hgeq : g = exC9config := by
      have happ : applyAll {} exC9opts = .ok g := hg
      rw [show applyAll {} exC9opts = .ok exC9config from rfl] at happ
      exact ((Except.ok.injEq _ _).mp happ).symm
    subst hgeq
    rcases hc with hc | hc | hc
    · exact absurd hc (by decide)
    · exact absurd hc (by decide)
    · revert hc; decide

/-- C10: `TestCase.Next` indexes the generator's states table with the
raw decoded `int16`; a record whose index is negative or not below the
table length passes the CRC check and decodes (first conjunct), and
`TestCase.Next` faults on it instead of returning an error (second
conjunct). -/
theorem C10_replay_index_fault (g : GenTables) (states : List Int) (k : Nat)
    (hr : ∀ v ∈ states, -32768 ≤ v ∧ v < 32768) (hl : states.length < 2 ^ 30)
    (hk : k < states.length)
    (hbad : states.getD k 0 < 0 ∨ (g.states.length : Int) ≤ states.getD k 0) :
    readRecord (writeRecord states) = .ok states ∧
    TestCase.Next g { states := states, step := k } = .fault := by
  refine ⟨readRecord_writeRecord states hr hl, ?_⟩
  have hne : ¬ (({ states := states, step := k } : TestCase).step =
      ({ states := states, step := k } : TestCase).states.length) := by
    simp only
    omega
  have hbad' : (({ states := states, step := k } : TestCase).states.getD
        (({ states := states, step := k } : TestCase).step) 0 < 0 ∨
      (g.states.length : Int) ≤ ({ states := states, step := k } : TestCase).states.getD
        (({ states := states, step := k } : TestCase).step) 0) := by
    simpa using hbad
  unfold TestCase.Next
  rw [if_neg hne, if_pos hbad']

/-- C4: for every TestCase, unmarshalling the bytes produced by
marshalling it yields the same states vector (same length, same
elements).  The hypotheses delimit the domain of the Go types: each
state is an `int16` and the length fits in an `int64`. -/
theorem C4_marshal_roundtrip (states : List Int)
    (hr : ∀ v ∈ states, -32768 ≤ v ∧ v < 32768) (hl : states.length < 2 ^ 63) :
    Unmarshal (Marshal states) = some states :=
  unmarshal_marshal_eq states hr hl

/-- C4 witness: the roundtrip evaluated on a concrete states vector
covering zero, positive, and both `int16` extremes. -/
theorem C4_marshal_roundtrip_witness :
    ((∀ v ∈ [(0 : Int), 17, -32768, 32767], -32768 ≤ v ∧ v < 32768) ∧
      ([(0 : Int), 17, -32768, 32767].length < 2 ^ 63)) ∧
    Unmarshal (Marshal [0, 17, -32768, 32767]) = some [0, 17, -32768, 32767] :=
  ⟨⟨by decide, by decide⟩, C4_marshal_roundtrip [0, 17, -32768, 32767] (by decide) (by decide)⟩

/-- C5: flipping any single bit of the payload of a record written by
`Replay.Write` makes `Replay.Read` return the "corrupted replay" error:
a one-bit difference always changes the CRC-32C because the per-bit
difference map is injective on 32-bit states. -/
theorem C5_single_bit_flip_detected (states : List Int) (i : Nat)
    (hi : i < 8 * (Marshal states).length)
    (hlen : (Marshal states).length < 2 ^ 32) :
    readRecord (corruptRecord states i) = .error "replay file is corrupted" :=
  readRecord_corrupt states i hi hlen

/-- C5 witness: corruption detection evaluated on a concrete record
with bit 5 of the payload flipped. -/
theorem C5_single_bit_flip_detected_witness :
    (5 < 8 * (Marshal [3, 5, -1]).length ∧ (Marshal [3, 5, -1]).length < 2 ^ 32) ∧
    readRecord (corruptRecord [3, 5, -1] 5) = .error "replay file is corrupted" :=
  ⟨⟨by decide, by decide⟩, C5_single_bit_flip_detected [3, 5, -1] 5 (by decide) (by decide)⟩

/-- C10 witness: a record holding state index 5 passes the CRC check and
decodes, and `TestCase.Next` against a one-state table faults on it. -/
theorem C10_replay_index_fault_witness :
    ((∀ v ∈ [(5 : Int)], -32768 ≤ v ∧ v < 32768) ∧ [(5 : Int)].length < 2 ^ 30 ∧
      0 < [(5 : Int)].length ∧
      ([(5 : Int)].getD 0 0 < 0 ∨ (exTables.states.length : Int) ≤ [(5 : Int)].getD 0 0)) ∧
    (readRecord (writeRecord [5]) = .ok [5] ∧
      TestCase.Next exTables { states := [5], step := 0 } = .fault) :=
  ⟨⟨by decide, by decide, by decide, by decide⟩,
   C10_replay_index_fault exTables [5] 0 (by decide) (by decide) (by decide) (by decide)⟩

/-- C6 amended witness: the amended single-replica statement applied to
a concrete one-step schedule in which node 1 is leader. -/
theorem C6_single_replica_amended_witness :
    ∃ q : Paxos,
      runSteps [(partitionOfNetwork [[1]], exLeader 1)] ⟨initCluster [1] 1 1, []⟩ =
        .ok ⟨[q], []⟩ ∧ q.LearnedValue = none :=
  C6_single_replica_amended [(partitionOfNetwork [[1]], exLeader 1)]

/-- C9 amended witness: the outcome characterization applied to the
concrete option list with a negative step limit. -/
theorem C9_construction_amended_witness :
    ((∃ e, NewGen exC9opts = .err e) ↔ NewGenErrCond exC9opts) ∧
    (NewGen exC9opts = .fault ↔ NewGenFaultCond exC9opts) ∧
    ((∃ g, NewGen exC9opts = .ok g) ↔ ¬ NewGenErrCond exC9opts ∧ ¬ NewGenFaultCond exC9opts) :=
  C9_construction_amended exC9opts
